import Mathlib

/-!
Verification of the episode discovery and playback pipeline of the Hisame
repository (package `internal/player` plus the MPV player implementation).

Each definition below is a shallow embedding of the corresponding Go
function, translated directly from the source:

* `internal/player/service.go` — `FindEpisodes`, `deduplicateShows`,
  `matchesByTitleOrSynonyms`, `buildEpisodeList`, `GetEpisodeSources`,
  `decodeSourceURL`, `hexToChar`;
* `internal/player/allanime_client.go` — the data model
  (`AllAnimeShow`, `AiredDate`, `Season`, `EpisodeSource`),
  `GetAniListID`, `GetAvailableEpisodes`;
* the MPV player file (`Play`, `calculateProgressPercentage`,
  `extractEventDataFloat`) and `WaitForConnection` from the IPC client.

Modelling conventions:
* Go `int` is `Int` (the values involved — episode numbers, AniList ids,
  calendar fields — never approach the 64-bit bounds, except inside
  `strconv.Atoi`, whose range check is modelled explicitly);
* Go `float64` is `ℚ` (exact arithmetic; every concrete value appearing in
  the claims is exactly representable as a binary float, so the rational
  model agrees with the float computation at those points);
* Go `sort.Slice` / `sort.Ints` are modelled by `goInsertionSort`, a
  faithful rendering of Go's insertion sort (`insertionSort_func`), which
  is what `sort.Slice` runs for slices of fewer than 12 elements; for
  `sort.Ints` the result coincides with any sorting algorithm because
  equal `Int`s are indistinguishable;
* fallible Go functions returning `(T, error)` become `Except String T`,
  carrying the (apostrophe-free rendering of the) Go error message.
-/

namespace Hisame

/-! ## Go sort.Slice, modelled as Go's insertion sort

Go's `insertionSort` moves each element left past every predecessor `p`
with `less(x, p)`, stopping at the first predecessor with `¬ less(x, p)`.
`goInsertRev` performs one such insertion, operating on the reversed
already-processed segment so the scan is structural recursion. -/

def goInsertRev {α : Type} (less : α → α → Bool) (x : α) : List α → List α
  | [] => [x]
  | p :: ps => if less x p then p :: goInsertRev less x ps else x :: p :: ps

def goInsertionSort {α : Type} (less : α → α → Bool) (l : List α) : List α :=
  (l.foldl (fun acc x => goInsertRev less x acc) []).reverse

theorem goInsertRev_perm {α : Type} (less : α → α → Bool) (x : α) (l : List α) :
    (goInsertRev less x l).Perm (x :: l) := by
  induction l with
  | nil => simp [goInsertRev]
  | cons p ps ih =>
    by_cases h : less x p
    · simp only [goInsertRev, h, if_true]
      exact (ih.cons p).trans (List.Perm.swap x p ps)
    · simp [goInsertRev, h]

theorem goInsertionSort_foldl_perm {α : Type} (less : α → α → Bool) :
    ∀ (l acc : List α), (l.foldl (fun acc x => goInsertRev less x acc) acc).Perm (l ++ acc) := by
  intro l
  induction l with
  | nil => intro acc; simp
  | cons x xs ih =>
    intro acc
    have h1 := ih (goInsertRev less x acc)
    have h2 : (xs ++ goInsertRev less x acc).Perm (xs ++ x :: acc) :=
      List.Perm.append_left xs (goInsertRev_perm less x acc)
    have h3 : (xs ++ x :: acc).Perm (x :: (xs ++ acc)) := List.perm_middle
    simpa using h1.trans (h2.trans h3)

theorem goInsertionSort_perm {α : Type} (less : α → α → Bool) (l : List α) :
    (goInsertionSort less l).Perm l := by
  have h := goInsertionSort_foldl_perm less l []
  simpa [goInsertionSort] using (List.reverse_perm _).trans h

theorem goInsertRev_head {α : Type} (less : α → α → Bool) (x : α) (l : List α) :
    (goInsertRev less x l).head? = some x ∨ (goInsertRev less x l).head? = l.head? := by
  cases l with
  | nil => left; rfl
  | cons p ps =>
    by_cases h : less x p
    · right; simp [goInsertRev, h]
    · left; simp [goInsertRev, h]

theorem goInsertRev_chain {α : Type} (less : α → α → Bool)
    (hasym : ∀ a b, less a b = true → less b a = false) (x : α) :
    ∀ l : List α, List.Chain' (fun p q => less p q = false) l →
      List.Chain' (fun p q => less p q = false) (goInsertRev less x l) := by
  intro l
  induction l with
  | nil => intro _; simp [goInsertRev]
  | cons p ps ih =>
    intro hl
    rw [List.chain'_cons'] at hl
    by_cases h : less x p
    · simp only [goInsertRev, h, if_true]
      rw [List.chain'_cons']
      refine ⟨?_, ih hl.2⟩
      intro y hy
      rcases goInsertRev_head less x ps with hh | hh
      · rw [hh] at hy
        simp only [Option.mem_def, Option.some_inj] at hy
        subst hy
        exact hasym x p h
      · rw [hh] at hy
        exact hl.1 y hy
    · have h' : less x p = false := Bool.eq_false_iff.mpr h
      simp only [goInsertRev, h', Bool.false_eq_true, if_false]
      rw [List.chain'_cons']
      refine ⟨?_, ?_⟩
      · intro y hy
        simp only [List.head?_cons, Option.mem_def, Option.some_inj] at hy
        subst hy
        exact h'
      · rw [List.chain'_cons']
        exact hl

theorem goInsertionSort_foldl_chain {α : Type} (less : α → α → Bool)
    (hasym : ∀ a b, less a b = true → less b a = false) :
    ∀ (l acc : List α), List.Chain' (fun p q => less p q = false) acc →
      List.Chain' (fun p q => less p q = false)
        (l.foldl (fun acc x => goInsertRev less x acc) acc) := by
  intro l
  induction l with
  | nil => intro acc h; simpa using h
  | cons x xs ih =>
    intro acc h
    exact ih (goInsertRev less x acc) (goInsertRev_chain less hasym x acc h)

/-- The output of `goInsertionSort` has no adjacent inverted pair: for
consecutive elements `a, b` of the result, `less b a = false`. -/
theorem goInsertionSort_chain {α : Type} (less : α → α → Bool)
    (hasym : ∀ a b, less a b = true → less b a = false) (l : List α) :
    List.Chain' (fun a b => less b a = false) (goInsertionSort less l) := by
  have h := goInsertionSort_foldl_chain less hasym l [] (by simp)
  have := List.chain'_reverse.mpr
    (show List.Chain' (flip fun a b => less b a = false)
      (l.foldl (fun acc x => goInsertRev less x acc) []) from h)
  simpa [goInsertionSort] using this

/-! ## strconv.Atoi -/

/-- Value of a nonempty all-digit character list, `none` otherwise; models
the digit-accumulation loop of Go `strconv.ParseInt` in base 10. -/
def digitsVal (ds : List Char) : Option Nat :=
  if ds.isEmpty then none
  else
    ds.foldl
      (fun acc c =>
        match acc with
        | none => none
        | some n => if c.isDigit then some (n * 10 + (c.toNat - ('0').toNat)) else none)
      (some 0)

/-- Go `strconv.Atoi`: optional single leading sign, then one or more
ASCII digits; errors on anything else and on 64-bit signed overflow. -/
def atoi? (s : String) : Option Int :=
  let core : List Char → Bool → Option Int := fun ds neg =>
    match digitsVal ds with
    | none => none
    | some n =>
      let v : Int := if neg then -(n : Int) else (n : Int)
      if v < -9223372036854775808 ∨ 9223372036854775807 < v then none else some v
  match s.data with
  | '+' :: ds => core ds false
  | '-' :: ds => core ds true
  | ds => core ds false

/-! ## String helpers -/

/-- Go `strings.ToLower` (modelled with the ASCII case mapping; it is
applied identically on both sides of every comparison below). -/
def lowerStr (s : String) : String :=
  String.mk (s.data.map Char.toLower)

/-- Does `needle` occur as a contiguous sublist of the second argument?
Models Go `strings.Contains`. -/
def containsSub (needle : List Char) : List Char → Bool
  | [] => needle.isEmpty
  | c :: rest => needle.isPrefixOf (c :: rest) || containsSub needle rest

/-- Go `strings.Contains(s, sub)`. -/
def strContains (s sub : String) : Bool :=
  containsSub sub.data s.data

/-! ## Data model (allanime_client.go / domain) -/

/-- `AiredDate` from allanime_client.go. -/
structure AiredDate where
  year : Int
  month : Int
  date : Int
  hour : Int
  minute : Int
deriving DecidableEq

/-- `Season` from allanime_client.go. -/
structure Season where
  quarter : String
  year : Int
deriving DecidableEq

/-- `AllAnimeShow` from allanime_client.go; the `availableEpisodesDetail`
sub/dub lists are inlined as two fields. -/
structure AllAnimeShow where
  id : String
  name : String
  englishName : String
  nativeName : String
  trustedAltNames : List String
  aniListID : String
  season : Season
  airedStart : AiredDate
  airedEnd : AiredDate
  availableSub : List String
  availableDub : List String
deriving DecidableEq

/-- `domain.AnimeTitle` (the snapshot used by service.go, where
`Preferred` is a plain field). -/
structure AnimeTitle where
  romaji : String
  english : String
  native : String
  preferred : String
deriving DecidableEq

/-! ## AiredDate.ToTime, modelled as minutes since the Unix epoch

Go's `time.Date(year, month, date, hour, minute, 0, 0, UTC)` first
normalises the month into `[Jan, Dec]` by floor division (its truncated
`div`/`mod` followed by a negativity fix-up is exactly floor semantics),
then adds the possibly out-of-range day, hour and minute as plain
offsets. `toAbsMinutes` computes the resulting instant as a minute count
(civil-from-days algorithm); `time.Time.Before` is `<` on that count. -/

def daysFromCivil (y m d : Int) : Int :=
  let y2 := if m ≤ 2 then y - 1 else y
  let era := Int.fdiv y2 400
  let yoe := y2 - era * 400
  let mp := Int.fmod (m + 9) 12
  let doy := Int.fdiv (153 * mp + 2) 5 + d - 1
  let doe := yoe * 365 + Int.fdiv yoe 4 - Int.fdiv yoe 100 + doy
  era * 146097 + doe - 719468

def toAbsMinutes (dt : AiredDate) : Int :=
  let m0 := dt.month - 1
  let y := dt.year + Int.fdiv m0 12
  let m := Int.fmod m0 12 + 1
  let days := daysFromCivil y m 1 + (dt.date - 1)
  (days * 24 + dt.hour) * 60 + dt.minute

/-- `a.ToTime().Before(b.ToTime())`. -/
def timeBefore (a b : AiredDate) : Bool :=
  decide (toAbsMinutes a < toAbsMinutes b)

/-! ## AllAnimeShow methods -/

/-- `GetAniListID` from allanime_client.go: empty or literal "null" or an
unparseable string yields 0. -/
def getAniListID (sh : AllAnimeShow) : Int :=
  if sh.aniListID = "" ∨ sh.aniListID = "null" then 0
  else
    match atoi? sh.aniListID with
    | none => 0
    | some id => id

/-- `GetAvailableEpisodes` from allanime_client.go. -/
def getAvailableEpisodes (sh : AllAnimeShow) (translationType : String) : List String :=
  match translationType with
  | "sub" => sh.availableSub
  | "dub" => sh.availableDub
  | _ => sh.availableSub

/-! ## Matching (service.go FindEpisodes) -/

/-- `matchesByTitleOrSynonyms` from service.go. The Go body is an early
return on the first disjunct followed by a nested loop over
`TrustedAltNames` and `synonyms`; rendered with `||` / `any`. Note the
name comparison is pairwise: `Name` against `Romaji`, `EnglishName`
against `English`, `NativeName` against `Native`. -/
def matchesByTitleOrSynonyms (title : AnimeTitle) (synonyms : List String) (sh : AllAnimeShow) : Bool :=
  (lowerStr sh.name == lowerStr title.romaji
      || lowerStr sh.englishName == lowerStr title.english
      || lowerStr sh.nativeName == lowerStr title.native)
    || sh.trustedAltNames.any (fun altName =>
        synonyms.any (fun synonym => lowerStr altName == lowerStr synonym))

/-- The per-candidate filter inside `FindEpisodes`: direct AniList-id
match, else (no parseable id) title-or-synonym match. The Go code does
not require the id to be non-zero in the first branch. -/
def showMatches (animeID : Int) (title : AnimeTitle) (synonyms : List String) (sh : AllAnimeShow) : Bool :=
  (getAniListID sh == animeID)
    || ((getAniListID sh == 0) && matchesByTitleOrSynonyms title synonyms sh)

/-- `deduplicateShows` from service.go: first occurrence of each
allanime id wins. -/
def dedupGo (seen : List String) : List AllAnimeShow → List AllAnimeShow
  | [] => []
  | sh :: rest =>
    if seen.contains sh.id then dedupGo seen rest
    else sh :: dedupGo (sh.id :: seen) rest

def deduplicateShows (shows : List AllAnimeShow) : List AllAnimeShow :=
  dedupGo [] shows

/-- Lexicographic order on character lists; models Go byte-wise string
comparison (the aggregator ids compared below are ASCII). -/
def charListLt : List Char → List Char → Bool
  | [], [] => false
  | [], _ :: _ => true
  | _ :: _, [] => false
  | c :: cs, d :: ds => if c < d then true else if d < c then false else charListLt cs ds

/-- Go `a < b` on strings. -/
def strLtB (a b : String) : Bool :=
  charListLt a.data b.data

/-- The `sort.Slice` comparator in `FindEpisodes`: air-date comparison
when both years are positive, otherwise allanime-id string comparison. -/
def airLess (a b : AllAnimeShow) : Bool :=
  if 0 < a.airedStart.year ∧ 0 < b.airedStart.year then timeBefore a.airedStart b.airedStart
  else strLtB a.id b.id

/-- `sort.Slice(matchedShows, ...)` in `FindEpisodes`. -/
def sortMatchedShows (shows : List AllAnimeShow) : List AllAnimeShow :=
  goInsertionSort airLess shows

/-! ## Episode list building (service.go buildEpisodeList) -/

/-- `AllAnimeEpisodeInfo` from service.go; `AirDate` (a `time.Time`) is
held as its `toAbsMinutes` encoding. -/
structure AllAnimeEpisodeInfo where
  allAnimeID : String
  overallEpisodeNumber : Int
  allAnimeEpisodeNumber : String
  allAnimeName : String
  preferredTitle : String
  altNames : List String
  airDate : Int
  aniListID : Int
  season : String
  year : Int
  matchType : String
deriving DecidableEq

/-- `sort.Ints(episodeNums)`. -/
def sortInts (l : List Int) : List Int :=
  goInsertionSort (fun a b => decide (a < b)) l

/-- The `episodeMap` lookup of buildEpisodeList: the map assigns, per
parsed value, the episode string; later parseable entries overwrite
earlier ones, so the lookup is the last parseable occurrence. -/
def episodeLabelFor (availableEps : List String) (epNum : Int) : String :=
  availableEps.foldl
    (fun acc ep =>
      match atoi? ep with
      | some n => if n == epNum then ep else acc
      | none => acc)
    ("")

/-- `buildEpisodeList` from service.go, with the running `episodeOffset`
made an explicit argument (the Go loop starts it at 0). -/
def buildEpisodeList (tt : String) (animeID : Int) (titles : AnimeTitle) :
    List AllAnimeShow → Int → List AllAnimeEpisodeInfo
  | [], _ => []
  | sh :: rest, episodeOffset =>
    let availableEps := getAvailableEpisodes sh tt
    if availableEps.isEmpty then buildEpisodeList tt animeID titles rest episodeOffset
    else
      let episodeNums := sortInts (availableEps.filterMap atoi?)
      let matchType :=
        if (getAniListID sh == animeID) && (animeID != 0) then ("anilist") else ("synonym")
      let eps := episodeNums.map (fun epNum =>
        ({ allAnimeID := sh.id,
           overallEpisodeNumber := epNum + episodeOffset,
           allAnimeEpisodeNumber := episodeLabelFor availableEps epNum,
           allAnimeName := sh.name,
           preferredTitle := titles.preferred,
           altNames := sh.trustedAltNames,
           airDate := toAbsMinutes sh.airedStart,
           aniListID := getAniListID sh,
           season := sh.season.quarter,
           year := sh.season.year,
           matchType := matchType } : AllAnimeEpisodeInfo))
      if episodeNums.isEmpty then eps ++ buildEpisodeList tt animeID titles rest episodeOffset
      else eps ++ buildEpisodeList tt animeID titles rest (episodeOffset + episodeNums.getLastD 0)

def noCandidatesMsg : String := "no candidate shows found"

def noMatchMsg : String := "no matching shows found after filtering"

/-- The pure core of `FindEpisodes`: its input `allShows` stands for the
accumulated results of the per-title-variant catalog searches; the
function then deduplicates, filters to matching shows, sorts
chronologically and builds the episode list. Returns the episode list
together with the sorted matched shows (`RawShows`). -/
def findEpisodesCore (tt : String) (animeID : Int) (title : AnimeTitle) (synonyms : List String)
    (allShows : List AllAnimeShow) :
    Except String (List AllAnimeEpisodeInfo × List AllAnimeShow) :=
  let shows := deduplicateShows allShows
  if shows.isEmpty then .error noCandidatesMsg
  else
    let matchedShows := shows.filter (showMatches animeID title synonyms)
    if matchedShows.isEmpty then .error noMatchMsg
    else
      let sorted := sortMatchedShows matchedShows
      .ok (buildEpisodeList tt animeID title sorted 0, sorted)

/-! ## Source filtering (service.go GetEpisodeSources) -/

/-- `EpisodeSource` from allanime_client.go (the fields the pipeline
reads; `Type` is rendered `sourceType`). `Priority` is a Go `float64`,
modelled as `ℚ`. -/
structure EpisodeSource where
  sourceURL : String
  priority : ℚ
  sourceName : String
  sourceType : String
deriving DecidableEq

/-- The filter inside `GetEpisodeSources`: the source name must contain
"S-mp4" or "Luf-mp4". -/
def isSupportedSource (s : EpisodeSource) : Bool :=
  strContains s.sourceName ("S-mp4") || strContains s.sourceName ("Luf-mp4")

/-- The `sort.Slice` comparator inside `GetEpisodeSources`:
`filteredSources[i].Priority > filteredSources[j].Priority`. -/
def priorityLess (a b : EpisodeSource) : Bool :=
  decide (b.priority < a.priority)

/-- The pure part of `GetEpisodeSources`: filter the raw sources to the
supported markers, fail if none remain, sort descending by priority. -/
def getEpisodeSourcesFiltered (epNum : String) (sources : List EpisodeSource) :
    Except String (List EpisodeSource) :=
  let filteredSources := sources.filter isSupportedSource
  if filteredSources.isEmpty then .error ("no supported sources found for episode " ++ epNum)
  else .ok (goInsertionSort priorityLess filteredSources)

/-! ## Source URL decoding (service.go decodeSourceURL / hexToChar) -/

/-- `hexToChar` from service.go: the fixed pair-to-character substitution
table; the Go default branch returns the rune 0. -/
def hexToChar (pair : String) : Char :=
  match pair with
  | "01" => '9'
  | "08" => '0'
  | "05" => '='
  | "0a" => '2'
  | "0b" => '3'
  | "0c" => '4'
  | "07" => '?'
  | "00" => '8'
  | "5c" => 'd'
  | "0f" => '7'
  | "5e" => 'f'
  | "17" => '/'
  | "54" => 'l'
  | "09" => '1'
  | "48" => 'p'
  | "4f" => 'w'
  | "0e" => '6'
  | "5b" => 'c'
  | "5d" => 'e'
  | "0d" => '5'
  | "53" => 'k'
  | "1e" => '&'
  | "5a" => 'b'
  | "59" => 'a'
  | "4a" => 'r'
  | "4c" => 't'
  | "4e" => 'v'
  | "57" => 'o'
  | "51" => 'i'
  | _ => Char.ofNat 0

/-- The pair-decoding loop of `decodeSourceURL`: `i` is the position
counter used in the dangling-character error message. -/
def decodePairs (i : Nat) : List Char → Except String (List Char)
  | [] => .ok []
  | [_] => .error ("invalid hex pair at position " ++ toString i)
  | a :: b :: rest =>
    let c := hexToChar (String.mk [a, b])
    if c = Char.ofNat 0 then .error ("invalid hex pair: " ++ String.mk [a, b])
    else
      match decodePairs (i + 2) rest with
      | .error e => .error e
      | .ok cs => .ok (c :: cs)

/-- `strings.Replace(decoded, "/clock", "/clock.json", -1)`: left-to-right
non-overlapping replacement, continuing after each match. -/
def replaceClock : List Char → List Char
  | '/' :: 'c' :: 'l' :: 'o' :: 'c' :: 'k' :: rest => ("/clock.json").data ++ replaceClock rest
  | [] => []
  | c :: rest => c :: replaceClock rest

/-- `decodeSourceURL` from service.go: require the "--" marker, decode
the remainder two characters at a time, then rewrite "/clock". -/
def decodeSourceURL (encoded : String) : Except String String :=
  match encoded.data with
  | '-' :: '-' :: hexStr =>
    match decodePairs 0 hexStr with
    | .error e => .error e
    | .ok cs => .ok (String.mk (replaceClock cs))
  | _ => .error ("encoded string does not start with --: " ++ encoded)

/-- An even-length pair list in which every pair is in the substitution
table. -/
def validPairs : List Char → Bool
  | [] => true
  | [_] => false
  | a :: b :: rest => (hexToChar (String.mk [a, b]) != Char.ofNat 0) && validPairs rest

/-- The claim's characterisation of a decodable input: starts with "--"
and splits into mapped pairs. -/
def validEncoding (s : String) : Bool :=
  match s.data with
  | '-' :: '-' :: rest => validPairs rest
  | _ => false

/-! ## Playback session (MPV player Play / IPC client) -/

/-- One inbound IPC message, per the newline-delimited JSON protocol:
an `event` tag, a property `name` and a `data` payload. `data` is
`some v` exactly when the raw JSON payload unmarshals as a float64
(the only decoding the post-start monitor performs). -/
structure MPVEvent where
  event : String
  name : String
  data : Option ℚ
deriving DecidableEq

/-- `PlaybackEvent` from interfaces.go, as the three shapes the MPV
player actually emits: `started`, `ended` with a final progress, and
`error` with a cause. -/
inductive PlaybackEvent where
  | started : PlaybackEvent
  | ended : ℚ → PlaybackEvent
  | error : String → PlaybackEvent
deriving DecidableEq

def isErrorEvent : PlaybackEvent → Bool
  | .error _ => true
  | _ => false

def isTerminalEvent : PlaybackEvent → Bool
  | .started => false
  | _ => true

/-- `calculateProgressPercentage` from the MPV player. -/
def calculateProgressPercentage (playbackTime duration : ℚ) : ℚ :=
  if playbackTime = 0 ∨ duration = 0 then 0
  else playbackTime / duration * 100

/-- `extractEventDataFloat`: fails unless the event's property name is
the target and the payload unmarshals as a float. -/
def extractEventDataFloat (event : MPVEvent) (targetName : String) : Option ℚ :=
  if event.name = targetName then event.data else none

/-- The post-start monitoring loop of `Play` (the `for`/`select` in the
goroutine after the `started` event): `end-file` concludes with `ended`,
`property-change` updates the cached duration / playback time, anything
else is ignored. The list is the sequence of messages read from the IPC
channel; `channelClosed` tells whether the channel then closes (emit
`ended`) or the context is cancelled instead (return silently). -/
def monitorEvents (playbackTime duration : ℚ) :
    List MPVEvent → Bool → List PlaybackEvent
  | [], channelClosed =>
    if channelClosed then [PlaybackEvent.ended (calculateProgressPercentage playbackTime duration)]
    else []
  | event :: rest, channelClosed =>
    if event.event == "end-file" then
      [PlaybackEvent.ended (calculateProgressPercentage playbackTime duration)]
    else if event.event == "property-change" then
      let duration2 :=
        match extractEventDataFloat event ("duration") with
        | some v => v
        | none => duration
      let playbackTime2 :=
        match extractEventDataFloat event ("playback-time") with
        | some v => v
        | none => playbackTime
      monitorEvents playbackTime2 duration2 rest channelClosed
    else monitorEvents playbackTime duration rest channelClosed

/-- The retry loop of `WaitForConnection`: at most `maxAttempts` connect
attempts, succeeding at the first attempt that connects. -/
def attemptsLoop : Nat → List Bool → Bool
  | 0, _ => false
  | _ + 1, [] => false
  | n + 1, r :: rest => if r then true else attemptsLoop n rest

def connectTimeoutMsg (maxAttempts : Nat) : String :=
  "failed to connect to MPV after " ++ toString maxAttempts ++ " attempts"

/-- `WaitForConnection` from the IPC client, over the list of outcomes of
the successive connect attempts. -/
def waitForConnection (maxAttempts : Nat) (attemptResults : List Bool) : Except String Unit :=
  if attemptsLoop maxAttempts attemptResults then .ok () else .error (connectTimeoutMsg maxAttempts)

def startTimeoutMsg : String := "timeout waiting for MPV to start playback"

/-- The event trace produced by the monitoring goroutine of `Play`
(MPV player): connect phase (20 attempts), start-detection phase
(`WaitForPlaybackStart`, abstracted to its outcome `startDetected`),
then the `started` event followed by the monitoring loop. -/
def play (connectResults : List Bool) (startDetected : Bool) (mpvEvents : List MPVEvent)
    (channelClosed : Bool) : List PlaybackEvent :=
  match waitForConnection 20 connectResults with
  | .error e => [PlaybackEvent.error e]
  | .ok _ =>
    if startDetected then PlaybackEvent.started :: monitorEvents 0 0 mpvEvents channelClosed
    else [PlaybackEvent.error startTimeoutMsg]

/-! ## Spec-side definitions

These follow the wording of the specification sentences under scrutiny
(they are compared against the code-derived definitions above). -/

/-- Maximum of a list of integers (0 for the empty list; only used on
nonempty lists). -/
def listMax : List Int → Int
  | [] => 0
  | x :: xs => xs.foldl max x

/-- The parseable episode numbers of a show, in label-list order. -/
def parsedLocalNums (tt : String) (sh : AllAnimeShow) : List Int :=
  (getAvailableEpisodes sh tt).filterMap atoi?

/-- The overall numbers the spec describes: per show in sequence, each
parsed local number (ascending) plus the running offset; after a show
with at least one parseable label the offset grows by that show's
maximum parsed local number; shows with no parseable label are skipped
and leave the offset unchanged. -/
def specOverallNums (tt : String) : List AllAnimeShow → Int → List Int
  | [], _ => []
  | sh :: rest, offset =>
    let nums := parsedLocalNums tt sh
    if nums.isEmpty then specOverallNums tt rest offset
    else (sortInts nums).map (fun n => n + offset) ++ specOverallNums tt rest (offset + listMax nums)

/-- The matching rule as the claim states it: (a) parsed external
identifier equal to the input identifier and non-zero, or (b) no
parseable identifier and any primary/English/native name equal to any
input title variant (case-insensitively), or any trusted alternate name
equal to any input synonym. -/
def specShowMatches (animeID : Int) (title : AnimeTitle) (synonyms : List String)
    (sh : AllAnimeShow) : Bool :=
  ((getAniListID sh == animeID) && (getAniListID sh != 0))
    || ((getAniListID sh == 0) &&
        (([sh.name, sh.englishName, sh.nativeName]).any (fun n =>
            ([title.native, title.english, title.romaji]).any (fun t =>
              lowerStr n == lowerStr t))
          || sh.trustedAltNames.any (fun alt =>
              synonyms.any (fun syn => lowerStr alt == lowerStr syn))))

/-- The chronological order the claim describes: ascending air-start
date when both years are known, ascending aggregator id as the zero-year
fallback, and equal air-start dates broken by ascending aggregator id. -/
def specChronLe (a b : AllAnimeShow) : Bool :=
  if 0 < a.airedStart.year ∧ 0 < b.airedStart.year then
    (decide (toAbsMinutes a.airedStart < toAbsMinutes b.airedStart))
      || ((toAbsMinutes a.airedStart == toAbsMinutes b.airedStart)
          && (strLtB a.id b.id || (a.id == b.id)))
  else strLtB a.id b.id || (a.id == b.id)

/-! ## Concrete fixtures used by examples, witnesses and counterexamples -/

def exTitle : AnimeTitle :=
  { romaji := "A", english := "", native := "", preferred := "A" }

/-- Example 1, show A: local episodes 1,2,3, airing 2023. -/
def exShowA : AllAnimeShow :=
  { id := "a", name := "A", englishName := "", nativeName := "",
    trustedAltNames := [], aniListID := "7",
    season := { quarter := "Spring", year := 2023 },
    airedStart := { year := 2023, month := 4, date := 1, hour := 0, minute := 0 },
    airedEnd := { year := 2023, month := 6, date := 30, hour := 0, minute := 0 },
    availableSub := ["1", "2", "3"], availableDub := [] }

/-- Example 1, show B: local episodes 1,2, airing 2024. -/
def exShowB : AllAnimeShow :=
  { id := "b", name := "B", englishName := "", nativeName := "",
    trustedAltNames := [], aniListID := "7",
    season := { quarter := "Winter", year := 2024 },
    airedStart := { year := 2024, month := 1, date := 1, hour := 0, minute := 0 },
    airedEnd := { year := 2024, month := 3, date := 30, hour := 0, minute := 0 },
    availableSub := ["1", "2"], availableDub := [] }

/-- A show whose two labels "1" and "01" both parse to the integer 1. -/
def dupLabelShow : AllAnimeShow :=
  { exShowA with availableSub := ["1", "01"] }

/-- Same air-start date as `exShowA` but aggregator id "b". -/
def tieShowB : AllAnimeShow :=
  { exShowA with id := "b" }

/-- A candidate with no parseable AniList id and names matching none of
the titles below. -/
def unrelatedShow : AllAnimeShow :=
  { exShowA with
      id := "u", aniListID := "null", name := "x", englishName := "y", nativeName := "z" }

def unrelatedTitle : AnimeTitle :=
  { romaji := "r", english := "e", native := "n", preferred := "r" }

/-- A candidate with no parseable AniList id whose primary name equals
the input English title variant (but not the romaji one). -/
def crossNameShow : AllAnimeShow :=
  { exShowA with
      id := "c", aniListID := "null", name := "Foo", englishName := "qq", nativeName := "ww" }

def crossNameTitle : AnimeTitle :=
  { romaji := "bar", english := "foo", native := "baz", preferred := "bar" }

/-- Example 2: an unsupported iframe source and a supported S-mp4 one. -/
def exSourceIframe : EpisodeSource :=
  { sourceURL := "--17", priority := 5, sourceName := "Yt-mp4", sourceType := "iframe" }

def exSourceSmp4 : EpisodeSource :=
  { sourceURL := "--1748", priority := 9, sourceName := "S-mp4-x", sourceType := "player" }

/-- Property-change message carrying playback-time 45. -/
def evPlaybackTime45 : MPVEvent :=
  { event := "property-change", name := "playback-time", data := some 45 }

/-- Property-change message carrying playback-time -45. -/
def evPlaybackTimeNeg45 : MPVEvent :=
  { event := "property-change", name := "playback-time", data := some (-45) }

/-- Property-change message carrying duration 90. -/
def evDuration90 : MPVEvent :=
  { event := "property-change", name := "duration", data := some 90 }

/-- The end-file message. -/
def evEndFile : MPVEvent :=
  { event := "end-file", name := "", data := none }

/-- An explicit player-reported error message on the IPC channel. -/
def evPlayerError : MPVEvent :=
  { event := "error", name := "", data := none }

/-! ## Lemmas on sortInts and listMax -/

theorem sortInts_perm (l : List Int) : (sortInts l).Perm l :=
  goInsertionSort_perm _ l

theorem sortInts_chain_le (l : List Int) : List.Chain' (· ≤ ·) (sortInts l) := by
  have hasym : ∀ a b : Int, decide (a < b) = true → decide (b < a) = false := by
    intro a b h
    simp only [decide_eq_true_eq] at h
    simpa using not_lt.mpr h.le
  have h := goInsertionSort_chain (fun a b => decide (a < b)) hasym l
  refine h.imp ?_
  intro a b hab
  simpa using hab

theorem sortInts_eq_nil_iff (l : List Int) : sortInts l = [] ↔ l = [] := by
  constructor
  · intro h
    have := (sortInts_perm l).length_eq
    rw [h] at this
    exact List.length_eq_zero.mp this.symm
  · intro h
    subst h
    rfl

theorem getLastD_cons_irrel : ∀ (rs : List Int) (b d₁ d₂ : Int),
    (b :: rs).getLastD d₁ = (b :: rs).getLastD d₂ := by
  intro rs
  induction rs with
  | nil => intro b d₁ d₂; rfl
  | cons c rs' ih =>
    intro b d₁ d₂
    rw [List.getLastD_cons, List.getLastD_cons, List.getLastD_cons, List.getLastD_cons]

theorem getLastD_mem : ∀ (l : List Int) (a : Int), (a :: l).getLastD 0 ∈ a :: l := by
  intro l
  induction l with
  | nil => intro a; simp [List.getLastD]
  | cons b rs ih =>
    intro a
    rw [List.getLastD_cons]
    rw [getLastD_cons_irrel rs b a 0]
    exact List.mem_cons_of_mem a (ih b)

theorem le_getLastD_of_chain : ∀ (l : List Int) (a : Int),
    List.Chain' (· ≤ ·) (a :: l) → ∀ x ∈ a :: l, x ≤ (a :: l).getLastD 0 := by
  intro l
  induction l with
  | nil =>
    intro a _ x hx
    simp only [List.mem_singleton] at hx
    subst hx
    simp [List.getLastD]
  | cons b rs ih =>
    intro a hchain x hx
    have hab : a ≤ b := (List.chain'_cons.mp hchain).1
    have htail : List.Chain' (· ≤ ·) (b :: rs) := (List.chain'_cons.mp hchain).2
    have hlast : (a :: b :: rs).getLastD 0 = (b :: rs).getLastD 0 := by
      rw [List.getLastD_cons, getLastD_cons_irrel rs b a 0]
    rw [hlast]
    rcases List.mem_cons.mp hx with hxa | hxtail
    · subst hxa
      exact hab.trans (ih b htail b (List.mem_cons_self b rs))
    · exact ih b htail x hxtail

theorem foldl_max_init_le : ∀ (xs : List Int) (a : Int), a ≤ xs.foldl max a := by
  intro xs
  induction xs with
  | nil => intro a; exact le_refl a
  | cons y ys ih => intro a; exact (le_max_left a y).trans (ih (max a y))

theorem foldl_max_le_of_mem : ∀ (xs : List Int) (a x : Int), x ∈ xs → x ≤ xs.foldl max a := by
  intro xs
  induction xs with
  | nil => intro a x hx; cases hx
  | cons y ys ih =>
    intro a x hx
    rcases List.mem_cons.mp hx with h | h
    · subst h
      exact (le_max_right a x).trans (foldl_max_init_le ys (max a x))
    · exact ih (max a y) x h

theorem foldl_max_mem : ∀ (xs : List Int) (a : Int), xs.foldl max a = a ∨ xs.foldl max a ∈ xs := by
  intro xs
  induction xs with
  | nil => intro a; left; rfl
  | cons y ys ih =>
    intro a
    rcases ih (max a y) with h | h
    · rcases max_choice a y with hm | hm
      · left; rw [List.foldl_cons, h, hm]
      · right; rw [List.foldl_cons, h, hm]; exact List.mem_cons_self y ys
    · right
      exact List.mem_cons_of_mem y h

theorem listMax_mem (l : List Int) (h : l ≠ []) : listMax l ∈ l := by
  cases l with
  | nil => cases h rfl
  | cons x xs =>
    rcases foldl_max_mem xs x with hm | hm
    · rw [listMax, hm]; exact List.mem_cons_self x xs
    · exact List.mem_cons_of_mem x hm

theorem le_listMax_of_mem (l : List Int) (x : Int) (hx : x ∈ l) : x ≤ listMax l := by
  cases l with
  | nil => cases hx
  | cons y ys =>
    rcases List.mem_cons.mp hx with h | h
    · subst h
      exact foldl_max_init_le ys x
    · exact foldl_max_le_of_mem ys y x h

theorem sortInts_getLastD_eq_listMax (l : List Int) (h : l ≠ []) :
    (sortInts l).getLastD 0 = listMax l := by
  have hne : sortInts l ≠ [] := fun hc => h ((sortInts_eq_nil_iff l).mp hc)
  obtain ⟨a, m, hm⟩ := List.exists_cons_of_ne_nil hne
  have hmem : (sortInts l).getLastD 0 ∈ sortInts l := by
    rw [hm]; exact getLastD_mem m a
  have hmem' : (sortInts l).getLastD 0 ∈ l := (sortInts_perm l).mem_iff.mp hmem
  have h1 : (sortInts l).getLastD 0 ≤ listMax l := le_listMax_of_mem l _ hmem'
  have h2 : listMax l ≤ (sortInts l).getLastD 0 := by
    have hmaxmem : listMax l ∈ sortInts l := (sortInts_perm l).mem_iff.mpr (listMax_mem l h)
    have := le_getLastD_of_chain m a (hm ▸ sortInts_chain_le l) (listMax l) (hm ▸ hmaxmem)
    rwa [hm]
  exact le_antisymm h1 h2

/-! ## The overall-number refinement (code vs. spec wording) -/

theorem buildEpisodeList_map_overall (tt : String) (animeID : Int) (titles : AnimeTitle) :
    ∀ (shows : List AllAnimeShow) (off : Int),
      (buildEpisodeList tt animeID titles shows off).map (·.overallEpisodeNumber)
        = specOverallNums tt shows off := by
  intro shows
  induction shows with
  | nil => intro off; rfl
  | cons sh rest ih =>
    intro off
    by_cases h1 : (getAvailableEpisodes sh tt).isEmpty
    · have hnil : getAvailableEpisodes sh tt = [] := List.isEmpty_iff.mp h1
      have hnums : parsedLocalNums tt sh = [] := by
        unfold parsedLocalNums
        rw [hnil]
        rfl
      simp only [buildEpisodeList, specOverallNums, h1, if_true, hnums, List.isEmpty_nil]
      exact ih off
    · by_cases h2 : (sortInts ((getAvailableEpisodes sh tt).filterMap atoi?)).isEmpty
      · have hnums : parsedLocalNums tt sh = [] := by
          unfold parsedLocalNums
          exact (sortInts_eq_nil_iff _).mp (List.isEmpty_iff.mp h2)
        simp only [buildEpisodeList, specOverallNums, h1, if_false, h2, if_true, hnums,
          List.isEmpty_nil, Bool.false_eq_true, List.isEmpty_iff.mp h2, List.map_nil,
          List.nil_append]
        exact ih off
      · have hne : parsedLocalNums tt sh ≠ [] := by
          intro hc
          apply h2
          unfold parsedLocalNums at hc
          rw [hc]
          rfl
        have hnumsne : (parsedLocalNums tt sh).isEmpty = false := by
          simpa [List.isEmpty_iff] using hne
        have hlast : (sortInts ((getAvailableEpisodes sh tt).filterMap atoi?)).getLastD 0
            = listMax ((getAvailableEpisodes sh tt).filterMap atoi?) :=
          sortInts_getLastD_eq_listMax _ hne
        simp only [buildEpisodeList, specOverallNums, h1, if_false, h2, Bool.false_eq_true,
          hnumsne, List.map_append, List.map_map, hlast]
        rw [ih]
        rfl

/-! ## Decoder lemmas -/

theorem decodePairs_isOk : ∀ (i : Nat) (l : List Char), (decodePairs i l).isOk = validPairs l := by
  intro i l
  induction l using validPairs.induct generalizing i with
  | case1 => rfl
  | case2 a => rfl
  | case3 a b rest ih =>
    by_cases h : hexToChar (String.mk [a, b]) = Char.ofNat 0
    · simp [decodePairs, validPairs, h, bne, Except.isOk, Except.toBool]
    · have hb : (hexToChar (String.mk [a, b]) != Char.ofNat 0) = true := bne_iff_ne.mpr h
      simp only [decodePairs, validPairs, if_neg h, hb, Bool.true_and]
      rw [← ih (i + 2)]
      cases hrec : decodePairs (i + 2) rest with
      | error e => simp [hrec, Except.isOk, Except.toBool]
      | ok cs => simp [hrec, Except.isOk, Except.toBool]

theorem decodeSourceURL_isOk (s : String) : (decodeSourceURL s).isOk = validEncoding s := by
  unfold decodeSourceURL validEncoding
  split
  · rename_i hexStr _
    cases hd : decodePairs 0 hexStr with
    | error e =>
      have h := decodePairs_isOk 0 hexStr
      rw [hd] at h
      simpa [Except.isOk, Except.toBool] using h
    | ok cs =>
      have h := decodePairs_isOk 0 hexStr
      rw [hd] at h
      simpa [Except.isOk, Except.toBool] using h
  · rfl

theorem validPairs_of_odd : ∀ l : List Char, l.length % 2 = 1 → validPairs l = false := by
  intro l
  induction l using validPairs.induct with
  | case1 => intro h; simp at h
  | case2 a => intro _; rfl
  | case3 a b rest ih =>
    intro h
    simp only [List.length_cons] at h
    have hrest : rest.length % 2 = 1 := by omega
    simp only [validPairs, ih hrest, Bool.and_false]

/-! ## Monitor-trace shape lemma -/

theorem monitorEvents_shape :
    ∀ (evs : List MPVEvent) (pt dur : ℚ) (closed : Bool),
      monitorEvents pt dur evs closed = [] ∨
        ∃ p, monitorEvents pt dur evs closed = [PlaybackEvent.ended p] := by
  intro evs
  induction evs with
  | nil =>
    intro pt dur closed
    cases closed with
    | false => left; rfl
    | true => right; exact ⟨_, rfl⟩
  | cons e rest ih =>
    intro pt dur closed
    by_cases h1 : e.event == "end-file"
    · right
      refine ⟨calculateProgressPercentage pt dur, ?_⟩
      simp [monitorEvents, h1]
    · by_cases h2 : e.event == "property-change"
      · simpa [monitorEvents, h1, h2] using ih _ _ closed
      · simpa [monitorEvents, h1, h2] using ih pt dur closed

/-! ## Strict-increase lemma for the spec-side numbering -/

theorem specOverallNums_chain (tt : String) :
    ∀ (shows : List AllAnimeShow),
      (∀ sh ∈ shows, (parsedLocalNums tt sh).Nodup) →
      (∀ sh ∈ shows, ∀ n ∈ parsedLocalNums tt sh, 1 ≤ n) →
      ∀ off : Int,
        List.Chain' (· < ·) (specOverallNums tt shows off)
        ∧ ∀ x ∈ specOverallNums tt shows off, off < x := by
  intro shows
  induction shows with
  | nil => intro _ _ off; exact ⟨List.chain'_nil, by simp [specOverallNums]⟩
  | cons sh rest ih =>
    intro hdist hpos off
    have hdist' := fun s hs => hdist s (List.mem_cons_of_mem sh hs)
    have hpos' := fun s hs => hpos s (List.mem_cons_of_mem sh hs)
    by_cases hnil : (parsedLocalNums tt sh).isEmpty
    · simpa [specOverallNums, hnil] using ih hdist' hpos' off
    · have hne : parsedLocalNums tt sh ≠ [] := by simpa [List.isEmpty_iff] using hnil
      have hnodup : (parsedLocalNums tt sh).Nodup := hdist sh (List.mem_cons_self sh rest)
      have hposn : ∀ n ∈ parsedLocalNums tt sh, 1 ≤ n := hpos sh (List.mem_cons_self sh rest)
      have hsortnodup : (sortInts (parsedLocalNums tt sh)).Nodup :=
        ((sortInts_perm _).nodup_iff).mpr hnodup
      have hpair_le : List.Pairwise (· ≤ ·) (sortInts (parsedLocalNums tt sh)) :=
        List.chain'_iff_pairwise.mp (sortInts_chain_le _)
      have hpair_lt : List.Pairwise (· < ·) (sortInts (parsedLocalNums tt sh)) :=
        (hpair_le.and hsortnodup).imp (fun hab => lt_of_le_of_ne hab.1 hab.2)
      have hblock : List.Chain' (· < ·)
          ((sortInts (parsedLocalNums tt sh)).map (fun n => n + off)) := by
        rw [List.chain'_map]
        exact hpair_lt.chain'.imp (fun hab => by omega)
      have hub : ∀ x ∈ (sortInts (parsedLocalNums tt sh)).map (fun n => n + off),
          x ≤ off + listMax (parsedLocalNums tt sh) := by
        intro x hx
        obtain ⟨n, hn, rfl⟩ := List.mem_map.mp hx
        have := le_listMax_of_mem _ n ((sortInts_perm _).mem_iff.mp hn)
        omega
      have hlb : ∀ x ∈ (sortInts (parsedLocalNums tt sh)).map (fun n => n + off), off < x := by
        intro x hx
        obtain ⟨n, hn, rfl⟩ := List.mem_map.mp hx
        have := hposn n ((sortInts_perm _).mem_iff.mp hn)
        omega
      have hmaxpos : 1 ≤ listMax (parsedLocalNums tt sh) :=
        hposn _ (listMax_mem _ hne)
      obtain ⟨ihchain, ihlb⟩ := ih hdist' hpos' (off + listMax (parsedLocalNums tt sh))
      have hgoal : specOverallNums tt (sh :: rest) off
          = (sortInts (parsedLocalNums tt sh)).map (fun n => n + off)
            ++ specOverallNums tt rest (off + listMax (parsedLocalNums tt sh)) := by
        simp only [specOverallNums]
        rw [if_neg hnil]
      rw [hgoal]
      constructor
      · rw [List.chain'_append]
        refine ⟨hblock, ihchain, ?_⟩
        intro x hx y hy
        obtain ⟨hxne, hxval⟩ := List.mem_getLast?_eq_getLast hx
        have hx' : x ∈ (sortInts (parsedLocalNums tt sh)).map (fun n => n + off) := by
          rw [hxval]
          exact List.getLast_mem hxne
        have hy' := List.mem_of_mem_head? hy
        exact lt_of_le_of_lt (hub x hx') (ihlb y hy')
      · intro x hx
        rcases List.mem_append.mp hx with h | h
        · exact hlb x h
        · have := ihlb x h
          omega

/-! ## Claim theorems -/

/-- C1: the episode-list builder assigns every produced episode the
overall number `parsed local number + offset`, where the offset starts
at 0 and, after each show with at least one parseable label, grows by
that show's maximum parsed local episode number (not its count); shows
with no parseable label produce nothing and leave the offset unchanged.
In particular show A with locals 1,2,3 followed by show B with locals
1,2 yields overall numbers 1,2,3,4,5. -/
theorem C1_continuous_numbering :
    (∀ (tt : String) (animeID : Int) (titles : AnimeTitle) (shows : List AllAnimeShow) (off : Int),
        (buildEpisodeList tt animeID titles shows off).map (·.overallEpisodeNumber)
          = specOverallNums tt shows off)
    ∧ (buildEpisodeList ("sub") 7 exTitle [exShowA, exShowB] 0).map (·.overallEpisodeNumber)
        = [1, 2, 3, 4, 5] :=
  ⟨fun tt animeID titles shows off => buildEpisodeList_map_overall tt animeID titles shows off,
    by decide⟩

/-- C2 counterexample: the claim asserts strictly increasing overall
numbers for arbitrary label lists, including repeated parsed integers.
A show whose labels "1" and "01" both parse to 1 produces the overall
numbers [1, 1], which are not strictly increasing. -/
theorem C2_counterexample :
    ¬ List.Chain' (· < ·)
      ((buildEpisodeList ("sub") 7 exTitle [dupLabelShow] 0).map (·.overallEpisodeNumber)) := by
  intro h
  have he : (buildEpisodeList ("sub") 7 exTitle [dupLabelShow] 0).map (·.overallEpisodeNumber)
      = [1, 1] := by decide
  rw [he] at h
  exact absurd (List.chain'_cons.mp h).1 (lt_irrefl 1)

/-- C2 (amended): when, for each show, the parseable labels yield
pairwise-distinct integers that are all at least 1, the overall episode
numbers of one resolution are strictly increasing in output order and
never repeat. -/
theorem C2_strict_increase (tt : String) (animeID : Int) (titles : AnimeTitle)
    (shows : List AllAnimeShow)
    (hdist : ∀ sh ∈ shows, (parsedLocalNums tt sh).Nodup)
    (hpos : ∀ sh ∈ shows, ∀ n ∈ parsedLocalNums tt sh, 1 ≤ n) :
    List.Chain' (· < ·) ((buildEpisodeList tt animeID titles shows 0).map (·.overallEpisodeNumber))
    ∧ ((buildEpisodeList tt animeID titles shows 0).map (·.overallEpisodeNumber)).Nodup := by
  rw [buildEpisodeList_map_overall]
  obtain ⟨hchain, _⟩ := specOverallNums_chain tt shows hdist hpos 0
  refine ⟨hchain, ?_⟩
  exact (List.chain'_iff_pairwise.mp hchain).imp (fun hab => ne_of_lt hab)

theorem C2_strict_increase_witness :
    List.Chain' (· < ·)
      ((buildEpisodeList ("sub") 7 exTitle [exShowA, exShowB] 0).map (·.overallEpisodeNumber)) :=
  (C2_strict_increase ("sub") 7 exTitle [exShowA, exShowB] (by decide) (by decide)).1

/-- C3: the source-URL decoder succeeds exactly on strings that carry
the "--" marker followed by a sequence of mapped two-character pairs
(so a string without the marker fails, and a string with any unmapped
pair fails, in both cases with an error value carrying no decoded
output); "--0859" decodes to "0a" while "--08zz" fails. -/
theorem C3_decode_errors :
    (∀ s : String, (decodeSourceURL s).isOk = validEncoding s)
    ∧ decodeSourceURL ("--0859") = .ok ("0a")
    ∧ decodeSourceURL ("--08zz") = .error ("invalid hex pair: zz") :=
  ⟨fun s => decodeSourceURL_isOk s, rfl, rfl⟩

/-- C10: an encoded string with the "--" marker but an odd number of
remaining characters is rejected (the dangling character is never
dropped), while the bare marker "--" decodes to the empty path. -/
theorem C10_odd_remainder :
    (∀ (s : String) (rest : List Char), s.data = '-' :: '-' :: rest → rest.length % 2 = 1 →
        (decodeSourceURL s).isOk = false)
    ∧ decodeSourceURL ("--") = .ok ("") := by
  constructor
  · intro s rest hs hodd
    rw [decodeSourceURL_isOk]
    unfold validEncoding
    rw [hs]
    exact validPairs_of_odd rest hodd
  · rfl

theorem C10_odd_remainder_witness :
    ("--085").data = '-' :: '-' :: ['0', '8', '5']
    ∧ (decodeSourceURL ("--085")).isOk = false :=
  ⟨rfl, C10_odd_remainder.1 ("--085") ['0', '8', '5'] rfl (by decide)⟩

/-- C4: GetEpisodeSources fails exactly when no raw source's name
contains one of the two supported markers, and otherwise returns exactly
the marker-bearing subset of the raw list, sorted descending by numeric
priority. -/
theorem C4_source_filtering (epNum : String) (sources : List EpisodeSource) :
    ((∃ e, getEpisodeSourcesFiltered epNum sources = .error e)
        ↔ sources.filter isSupportedSource = [])
    ∧ (∀ out, getEpisodeSourcesFiltered epNum sources = .ok out →
        out.Perm (sources.filter isSupportedSource)
        ∧ (∀ s ∈ out, s ∈ sources ∧ isSupportedSource s = true)
        ∧ (∀ s ∈ sources, isSupportedSource s = true → s ∈ out)
        ∧ List.Chain' (fun a b => b.priority ≤ a.priority) out) := by
  constructor
  · constructor
    · rintro ⟨e, he⟩
      unfold getEpisodeSourcesFiltered at he
      by_cases h : (sources.filter isSupportedSource).isEmpty
      · exact List.isEmpty_iff.mp h
      · rw [if_neg h] at he
        cases he
    · intro h
      refine ⟨"no supported sources found for episode " ++ epNum, ?_⟩
      unfold getEpisodeSourcesFiltered
      rw [if_pos (by simp [h])]
  · intro out hout
    unfold getEpisodeSourcesFiltered at hout
    by_cases h : (sources.filter isSupportedSource).isEmpty
    · rw [if_pos h] at hout
      cases hout
    · rw [if_neg h] at hout
      injection hout with hout
      subst hout
      have hperm := goInsertionSort_perm priorityLess (sources.filter isSupportedSource)
      refine ⟨hperm, ?_, ?_, ?_⟩
      · intro s hs
        have hmem := hperm.mem_iff.mp hs
        exact ⟨List.mem_of_mem_filter hmem, List.of_mem_filter hmem⟩
      · intro s hs hsup
        exact hperm.mem_iff.mpr (List.mem_filter.mpr ⟨hs, hsup⟩)
      · have hasym : ∀ a b, priorityLess a b = true → priorityLess b a = false := by
          intro a b hab
          simp only [priorityLess, decide_eq_true_eq] at hab
          simp only [priorityLess, decide_eq_false_iff_not]
          exact not_lt.mpr hab.le
        have hchain := goInsertionSort_chain priorityLess hasym (sources.filter isSupportedSource)
        refine hchain.imp (fun a b hab => ?_)
        simp only [priorityLess, decide_eq_false_iff_not] at hab
        exact not_lt.mp hab

theorem C4_source_filtering_witness :
    [exSourceSmp4].Perm ([exSourceIframe, exSourceSmp4].filter isSupportedSource)
    ∧ List.Chain' (fun a b => b.priority ≤ a.priority) [exSourceSmp4] :=
  have h := (C4_source_filtering ("1") [exSourceIframe, exSourceSmp4]).2 [exSourceSmp4] rfl
  ⟨h.1, h.2.2.2⟩

/-- C5 counterexample: the claim's matching rule differs from the code
at two points. With input identifier 0, a candidate whose external id is
unparseable (parsed 0) and whose names match nothing is matched by the
code's first branch (0 equals 0) although the claim requires a non-zero
identifier or a name match. Conversely, a candidate whose primary name
equals the input English variant under a non-matching romaji variant is
matched by the claim's any-name-vs-any-variant rule but not by the
code's pairwise comparison. -/
theorem C5_matching_counterexample :
    (showMatches 0 unrelatedTitle [] unrelatedShow = true
      ∧ specShowMatches 0 unrelatedTitle [] unrelatedShow = false)
    ∧ (showMatches 5 crossNameTitle [] crossNameShow = false
      ∧ specShowMatches 5 crossNameTitle [] crossNameShow = true) := by
  decide

/-- C5 (amended): a candidate is matched iff its parsed external
identifier equals the input identifier (with no non-zero requirement:
identifier 0 matches every candidate with an unparseable id), or its
parsed identifier is 0 and one of the pairwise name comparisons holds
(primary vs romaji, English vs English, native vs native,
case-insensitively), or some trusted alternate name equals some synonym
case-insensitively; an empty match set yields the no-match error,
distinct from the no-candidates error. -/
theorem C5_matching (animeID : Int) (title : AnimeTitle) (synonyms : List String)
    (sh : AllAnimeShow) (tt : String) (allShows : List AllAnimeShow) :
    (showMatches animeID title synonyms sh = true ↔
      (getAniListID sh = animeID ∨
        (getAniListID sh = 0 ∧
          (lowerStr sh.name = lowerStr title.romaji
            ∨ lowerStr sh.englishName = lowerStr title.english
            ∨ lowerStr sh.nativeName = lowerStr title.native
            ∨ ∃ alt ∈ sh.trustedAltNames, ∃ syn ∈ synonyms, lowerStr alt = lowerStr syn))))
    ∧ noMatchMsg ≠ noCandidatesMsg
    ∧ (findEpisodesCore tt animeID title synonyms allShows = .error noMatchMsg ↔
        deduplicateShows allShows ≠ []
          ∧ (deduplicateShows allShows).filter (showMatches animeID title synonyms) = []) := by
  refine ⟨?_, by decide, ?_⟩
  · simp only [showMatches, matchesByTitleOrSynonyms, Bool.or_eq_true, Bool.and_eq_true,
      beq_iff_eq, List.any_eq_true]
    tauto
  · unfold findEpisodesCore
    by_cases h1 : (deduplicateShows allShows).isEmpty
    · rw [if_pos h1]
      constructor
      · intro h
        injection h with h
        exact absurd h (by decide)
      · rintro ⟨hne, _⟩
        exact absurd (List.isEmpty_iff.mp h1) hne
    · rw [if_neg h1]
      by_cases h2 : ((deduplicateShows allShows).filter (showMatches animeID title synonyms)).isEmpty
      · rw [if_pos h2]
        constructor
        · intro _
          exact ⟨by simpa [List.isEmpty_iff] using h1, List.isEmpty_iff.mp h2⟩
        · intro _
          rfl
      · rw [if_neg h2]
        constructor
        · intro h
          cases h
        · rintro ⟨_, hf⟩
          exact absurd (by simp [hf] : ((deduplicateShows allShows).filter
            (showMatches animeID title synonyms)).isEmpty = true) h2

theorem charListLt_asymm : ∀ (a b : List Char),
    charListLt a b = true → charListLt b a = false := by
  intro a
  induction a with
  | nil =>
    intro b h
    cases b with
    | nil => cases h
    | cons d ds => rfl
  | cons c cs ih =>
    intro b h
    cases b with
    | nil => cases h
    | cons d ds =>
      unfold charListLt at h
      unfold charListLt
      by_cases h1 : c < d
      · rw [if_neg (lt_asymm h1), if_pos h1]
      · rw [if_neg h1] at h
        by_cases h2 : d < c
        · rw [if_pos h2] at h
          cases h
        · rw [if_neg h2] at h
          rw [if_neg h2, if_neg h1]
          exact ih ds h

/-- C8 counterexample: two matched shows with the same air-start date
and aggregator ids "b" and "a", presented in that order, are left in
input order by the sort (`sort.Slice` swaps only when the comparator
holds, and equal dates make it false in both directions), so the tie is
not broken by ascending aggregator id as the claim requires. -/
theorem C8_tie_counterexample :
    sortMatchedShows [tieShowB, exShowA] = [tieShowB, exShowA]
    ∧ tieShowB.airedStart = exShowA.airedStart
    ∧ strLtB exShowA.id tieShowB.id = true
    ∧ ¬ List.Chain' (fun a b => specChronLe a b = true) (sortMatchedShows [tieShowB, exShowA]) := by
  refine ⟨by decide, rfl, by decide, ?_⟩
  intro h
  rw [(by decide : sortMatchedShows [tieShowB, exShowA] = [tieShowB, exShowA])] at h
  exact absurd (List.chain'_cons.mp h).1 (by decide)

/-- C8 (amended): the matched shows are sorted by the comparator that
orders by air-start instant when both years are positive and by
aggregator id otherwise; the output is a permutation of the matched set
with no adjacent pair inverted under that comparator. The result is a
deterministic function of the matched sequence, but a tie (equal
air-start dates) keeps the input order of the two entries rather than
being broken by aggregator id. -/
theorem C8_chronological_order (shows : List AllAnimeShow) :
    (sortMatchedShows shows).Perm shows
    ∧ List.Chain' (fun a b => airLess b a = false) (sortMatchedShows shows) := by
  refine ⟨goInsertionSort_perm airLess shows, ?_⟩
  apply goInsertionSort_chain
  intro a b hab
  unfold airLess at hab
  unfold airLess
  by_cases h : 0 < a.airedStart.year ∧ 0 < b.airedStart.year
  · rw [if_pos h] at hab
    rw [if_pos ⟨h.2, h.1⟩]
    unfold timeBefore at hab
    unfold timeBefore
    simp only [decide_eq_true_eq] at hab
    simp only [decide_eq_false_iff_not]
    exact not_lt.mpr hab.le
  · rw [if_neg h] at hab
    have h2 : ¬ (0 < b.airedStart.year ∧ 0 < a.airedStart.year) := fun hc => h ⟨hc.2, hc.1⟩
    rw [if_neg h2]
    unfold strLtB at hab
    unfold strLtB
    exact charListLt_asymm _ _ hab

/-! ## Helpers for the playback-trace claims -/

theorem attemptsLoop_all_false :
    ∀ (cr : List Bool), (∀ r ∈ cr, r = false) → ∀ n, attemptsLoop n cr = false := by
  intro cr
  induction cr with
  | nil =>
    intro _ n
    cases n with
    | zero => rfl
    | succ m => rfl
  | cons r rest ih =>
    intro h n
    cases n with
    | zero => rfl
    | succ m =>
      have hr : r = false := h r (List.mem_cons_self r rest)
      simp only [attemptsLoop, hr, Bool.false_eq_true, if_false]
      exact ih (fun x hx => h x (List.mem_cons_of_mem r hx)) m

/-- Every trace of `play` has one of four shapes. -/
theorem play_shape (cr : List Bool) (s : Bool) (evs : List MPVEvent) (closed : Bool) :
    play cr s evs closed = [PlaybackEvent.error (connectTimeoutMsg 20)]
    ∨ play cr s evs closed = [PlaybackEvent.error startTimeoutMsg]
    ∨ play cr s evs closed = [PlaybackEvent.started]
    ∨ ∃ p, play cr s evs closed = [PlaybackEvent.started, PlaybackEvent.ended p] := by
  unfold play waitForConnection
  by_cases hc : attemptsLoop 20 cr
  · rw [if_pos hc]
    cases s with
    | false =>
      right; left
      rfl
    | true =>
      rcases monitorEvents_shape evs 0 0 closed with h | ⟨p, h⟩
      · right; right; left
        simp [h]
      · right; right; right
        exact ⟨p, by simp [h]⟩
  · rw [if_neg hc]
    left
    rfl

theorem append_singleton_decomp {α : Type} (a x : α) (pre post : List α)
    (h : pre ++ x :: post = [a]) : pre = [] ∧ x = a ∧ post = [] := by
  cases pre with
  | nil =>
    simp only [List.nil_append, List.cons.injEq] at h
    exact ⟨rfl, h.1, h.2⟩
  | cons p ps =>
    simp only [List.cons_append, List.cons.injEq] at h
    exact absurd h.2 (List.append_ne_nil_of_right_ne_nil ps (List.cons_ne_nil x post))

theorem append_pair_decomp {α : Type} (a b x : α) (pre post : List α)
    (h : pre ++ x :: post = [a, b]) :
    (pre = [] ∧ x = a ∧ post = [b]) ∨ (pre = [a] ∧ x = b ∧ post = []) := by
  cases pre with
  | nil =>
    simp only [List.nil_append, List.cons.injEq] at h
    exact Or.inl ⟨rfl, h.1, h.2⟩
  | cons p ps =>
    simp only [List.cons_append, List.cons.injEq] at h
    obtain ⟨hpa, htail⟩ := h
    obtain ⟨hps, hx, hpost⟩ := append_singleton_decomp b x ps post htail
    exact Or.inr ⟨by rw [hpa, hps], hx, hpost⟩

/-- C7: within one playback session, a `started` event is always the
head of the trace; an `ended` or `error` event is always the final
element; and a connect phase whose attempts all fail produces exactly
the single connect-timeout error event, never an `ended` event. -/
theorem C7_event_order (connectResults : List Bool) (startDetected : Bool)
    (mpvEvents : List MPVEvent) (channelClosed : Bool) :
    (PlaybackEvent.started ∈ play connectResults startDetected mpvEvents channelClosed →
      (play connectResults startDetected mpvEvents channelClosed).head?
        = some PlaybackEvent.started)
    ∧ (∀ (pre post : List PlaybackEvent) (x : PlaybackEvent),
        play connectResults startDetected mpvEvents channelClosed = pre ++ x :: post →
        isTerminalEvent x = true → post = [])
    ∧ ((∀ r ∈ connectResults, r = false) →
        play connectResults startDetected mpvEvents channelClosed
          = [PlaybackEvent.error (connectTimeoutMsg 20)]) := by
  refine ⟨?_, ?_, ?_⟩
  · intro hmem
    rcases play_shape connectResults startDetected mpvEvents channelClosed with
      h | h | h | ⟨p, h⟩ <;> rw [h] <;> rw [h] at hmem <;> simp_all
  · intro pre post x hdecomp hterm
    rcases play_shape connectResults startDetected mpvEvents channelClosed with
      h | h | h | ⟨p, h⟩
    · rw [h] at hdecomp
      exact (append_singleton_decomp _ x pre post hdecomp.symm).2.2
    · rw [h] at hdecomp
      exact (append_singleton_decomp _ x pre post hdecomp.symm).2.2
    · rw [h] at hdecomp
      exact (append_singleton_decomp _ x pre post hdecomp.symm).2.2
    · rw [h] at hdecomp
      rcases append_pair_decomp _ _ x pre post hdecomp.symm with ⟨_, hx, _⟩ | ⟨_, _, hpost⟩
      · rw [hx] at hterm
        exact absurd hterm (by decide)
      · exact hpost
  · intro hall
    unfold play waitForConnection
    rw [if_neg (by simp [attemptsLoop_all_false connectResults hall 20])]

theorem C7_event_order_witness :
    play (List.replicate 20 false) true [] true = [PlaybackEvent.error (connectTimeoutMsg 20)] :=
  (C7_event_order (List.replicate 20 false) true [] true).2.2 (by decide)

theorem C5_matching_witness :
    showMatches 7 exTitle [] exShowA = true
    ∧ (getAniListID exShowA = 7 ∨
        (getAniListID exShowA = 0 ∧
          (lowerStr exShowA.name = lowerStr exTitle.romaji
            ∨ lowerStr exShowA.englishName = lowerStr exTitle.english
            ∨ lowerStr exShowA.nativeName = lowerStr exTitle.native
            ∨ ∃ alt ∈ exShowA.trustedAltNames, ∃ syn ∈ ([] : List String),
                lowerStr alt = lowerStr syn))) :=
  ⟨by decide,
    (C5_matching 7 exTitle [] exShowA ("sub") []).1.mp (by decide)⟩

/-- C6 counterexample: the claim says progress "is never negative", but
a negative reported playback time passes through the formula unclamped:
a session that receives playback-time -45 and duration 90 and then
end-file reports final progress -50 in its ended event. -/
theorem C6_negative_counterexample :
    monitorEvents 0 0 [evPlaybackTimeNeg45, evDuration90, evEndFile] true
        = [PlaybackEvent.ended (-50)]
    ∧ calculateProgressPercentage (-45) 90 < 0 := by
  constructor
  · simp [monitorEvents, evPlaybackTimeNeg45, evDuration90, evEndFile,
      extractEventDataFloat, calculateProgressPercentage]
    norm_num
  · norm_num [calculateProgressPercentage]

/-- C6 (amended): progress is `playbackTime / duration * 100`, is 0 when
either operand is 0, is nonnegative whenever the reported playback time
and duration are nonnegative (a negative reported playback time passes
through as a negative value), and is not clamped above 100; a session
that receives playback-time 45 and duration 90 and then end-file
reports final progress 50 in its ended event. -/
theorem C6_progress (pt dur : ℚ) :
    ((pt = 0 ∨ dur = 0) → calculateProgressPercentage pt dur = 0)
    ∧ (pt ≠ 0 → dur ≠ 0 → calculateProgressPercentage pt dur = pt / dur * 100)
    ∧ (0 ≤ pt → 0 ≤ dur → 0 ≤ calculateProgressPercentage pt dur)
    ∧ calculateProgressPercentage 180 90 = 200
    ∧ play [true] true [evPlaybackTime45, evDuration90, evEndFile] true
        = [PlaybackEvent.started, PlaybackEvent.ended 50] := by
  refine ⟨?_, ?_, ?_, ?_, ?_⟩
  · intro h
    rcases h with h | h <;> simp [calculateProgressPercentage, h]
  · intro h1 h2
    simp [calculateProgressPercentage, h1, h2]
  · intro h1 h2
    unfold calculateProgressPercentage
    split
    · exact le_refl 0
    · exact mul_nonneg (div_nonneg h1 h2) (by norm_num)
  · norm_num [calculateProgressPercentage]
  · have hconn : waitForConnection 20 [true] = .ok () := rfl
    simp only [play, hconn]
    simp [monitorEvents, evPlaybackTime45, evDuration90, evEndFile, extractEventDataFloat,
      calculateProgressPercentage]
    norm_num

theorem C6_progress_witness :
    calculateProgressPercentage 45 90 = 45 / 90 * 100 :=
  (C6_progress 45 90).2.1 (by norm_num) (by norm_num)

/-- C9 counterexample: an explicit player-reported error message on the
IPC channel during the post-start monitoring phase is ignored by the
monitor loop (it handles only end-file and property-change); the
session delivers no error playback event at all and terminates with an
ended event when the channel closes. -/
theorem C9_error_ignored_counterexample :
    play [true] true [evPlayerError] true
        = [PlaybackEvent.started, PlaybackEvent.ended 0]
    ∧ (play [true] true [evPlayerError] true).any isErrorEvent = false := by
  decide

/-- C9 (amended): after the started event, the monitoring loop never
emits an error playback event; a message whose event tag is neither
end-file nor property-change (in particular an explicit player error
event) is skipped without effect, and the session ends with an ended
event on end-file or channel closure. -/
theorem C9_no_error_after_start (pt dur : ℚ) (evs : List MPVEvent) (closed : Bool) :
    ((monitorEvents pt dur evs closed).any isErrorEvent = false)
    ∧ (∀ e : MPVEvent, e.event ≠ "end-file" → e.event ≠ "property-change" →
        monitorEvents pt dur (e :: evs) closed = monitorEvents pt dur evs closed) := by
  constructor
  · rcases monitorEvents_shape evs pt dur closed with h | ⟨p, h⟩ <;> simp [h, isErrorEvent]
  · intro e h1 h2
    simp [monitorEvents, h1, h2]

theorem C9_no_error_after_start_witness :
    monitorEvents 0 0 [evPlayerError] true = monitorEvents 0 0 [] true :=
  (C9_no_error_after_start 0 0 [] true).2 evPlayerError (by decide) (by decide)

end Hisame
